import Mathlib

/-!
Verification development for the go-website2 file-backed wiki server.

Go strings are modelled as lists of characters (the server only ever
manipulates ASCII text in the places the properties below talk about).
Each definition mirrors one function or handler of the Go sources
(helper.go, main.go, and the vote-handling iteration of main.go).
-/

namespace GoWiki

/-- Convert a Lean string literal to the list-of-characters model. -/
def str (s : String) : List Char := s.data

/-! ### helper.go: charchecker -/

/-- A character of the allow-list of illegalCharPattern, i.e. a character
matching the class [a-z0-9_-].  illegalCharPattern is its complement. -/
def goodChar (c : Char) : Bool :=
  decide (('a' ≤ c ∧ c ≤ 'z') ∨ ('0' ≤ c ∧ c ≤ '9') ∨ c = '_' ∨ c = '-')

/-- helper.go charchecker: returns some error message when
illegalCharPattern (the regex [^a-z0-9_-]) matches the name, i.e. when
some character of the name is outside the allow-list; none otherwise. -/
def charchecker (name : List Char) : Option (List Char) :=
  if name.any (fun c => !(goodChar c)) then
    some (str "name contains bad characters")
  else
    none

/-! ### main.go: slug derivation inside createPageHandler -/

/-- The keep-set of slugRegex: slugRegex = [^a-zA-Z0-9-]+ and
ReplaceAllString with the empty string deletes every character not in
[a-zA-Z0-9-]. -/
def slugKeep (c : Char) : Bool :=
  decide (('a' ≤ c ∧ c ≤ 'z') ∨ ('A' ≤ c ∧ c ≤ 'Z') ∨ ('0' ≤ c ∧ c ≤ '9') ∨ c = '-')

/-- strings.ReplaceAll(s, " ", "-") acts on each character. -/
def spaceToHyphen (c : Char) : Char := if c = ' ' then '-' else c

/-- The three transformation steps of slug derivation in
createPageHandler: strings.ToLower (per character, ASCII), ReplaceAll of
spaces by hyphens, then deletion of every character outside [a-zA-Z0-9-]. -/
def sanitizeCore (name : List Char) : List Char :=
  ((name.map Char.toLower).map spaceToHyphen).filter slugKeep

/-- Full slug derivation of createPageHandler, with the fallback to
"untitled" for an empty result. -/
def sanitizeSlug (name : List Char) : List Char :=
  if sanitizeCore name = [] then str "untitled" else sanitizeCore name

/-! #### Character-level lemmas -/

theorem toNat_ofNat_valid (n : Nat) (h : n.isValidChar) :
    (Char.ofNat n).toNat = n := by
  unfold Char.ofNat
  rw [dif_pos h]
  rfl

theorem toLower_toNat_of_upper {c : Char} (h : 65 ≤ c.toNat ∧ c.toNat ≤ 90) :
    (Char.toLower c).toNat = c.toNat + 32 := by
  simp only [Char.toLower]
  rw [if_pos h]
  exact toNat_ofNat_valid _ (Or.inl (by omega))

theorem toLower_eq_of_not_upper {c : Char} (h : ¬(65 ≤ c.toNat ∧ c.toNat ≤ 90)) :
    Char.toLower c = c := by
  simp only [Char.toLower]
  rw [if_neg h]

theorem toLower_idem (c : Char) : Char.toLower (Char.toLower c) = Char.toLower c := by
  by_cases h : 65 ≤ c.toNat ∧ c.toNat ≤ 90
  · have hv : (Char.toLower c).toNat = c.toNat + 32 := toLower_toNat_of_upper h
    exact toLower_eq_of_not_upper (by omega)
  · rw [toLower_eq_of_not_upper h]
    exact toLower_eq_of_not_upper h

theorem toLower_not_upper (c : Char) :
    ¬(65 ≤ (Char.toLower c).toNat ∧ (Char.toLower c).toNat ≤ 90) := by
  by_cases h : 65 ≤ c.toNat ∧ c.toNat ≤ 90
  · have hv := toLower_toNat_of_upper h
    omega
  · rw [toLower_eq_of_not_upper h]
    exact h

/-- Bridge between the character order and code-point arithmetic. -/
theorem char_le_iff {a b : Char} : a ≤ b ↔ a.toNat ≤ b.toNat := by
  rw [Char.le_def, UInt32.le_def, BitVec.le_def]
  rfl

/-! #### Slug sanitizer fixpoint lemmas -/

theorem mem_sanitizeCore {name : List Char} {c : Char} (hc : c ∈ sanitizeCore name) :
    Char.toLower c = c ∧ spaceToHyphen c = c ∧ slugKeep c = true := by
  unfold sanitizeCore at hc
  have hkeep : slugKeep c = true := List.of_mem_filter hc
  have hmem : c ∈ (name.map Char.toLower).map spaceToHyphen := List.mem_of_mem_filter hc
  rcases List.mem_map.mp hmem with ⟨b, hb, hbc⟩
  rcases List.mem_map.mp hb with ⟨a, _, hab⟩
  have hlow : Char.toLower c = c := by
    by_cases hsp : b = ' '
    · have : c = '-' := by rw [← hbc, hsp]; rfl
      rw [this]; rfl
    · have hcb : c = b := by rw [← hbc]; simp [spaceToHyphen, hsp]
      rw [hcb, ← hab]
      exact toLower_idem a
  refine ⟨hlow, ?_, hkeep⟩
  have hne : c ≠ ' ' := by
    intro hcsp
    rw [hcsp] at hkeep
    simp [slugKeep] at hkeep
  simp [spaceToHyphen, hne]

theorem sanitizeCore_idem (name : List Char) :
    sanitizeCore (sanitizeCore name) = sanitizeCore name := by
  have hLow : (sanitizeCore name).map Char.toLower = sanitizeCore name := by
    have := List.map_congr_left
      (l := sanitizeCore name) (f := Char.toLower) (g := fun a => a)
      (fun a ha => (mem_sanitizeCore ha).1)
    simpa using this
  have hHyp : (sanitizeCore name).map spaceToHyphen = sanitizeCore name := by
    have := List.map_congr_left
      (l := sanitizeCore name) (f := spaceToHyphen) (g := fun a => a)
      (fun a ha => (mem_sanitizeCore ha).2.1)
    simpa using this
  have hFil : (sanitizeCore name).filter slugKeep = sanitizeCore name :=
    List.filter_eq_self.mpr (fun a ha => (mem_sanitizeCore ha).2.2)
  show (((sanitizeCore name).map Char.toLower).map spaceToHyphen).filter slugKeep
      = sanitizeCore name
  rw [hLow, hHyp, hFil]

theorem sanitizeCore_untitled : sanitizeCore (str "untitled") = str "untitled" := by
  decide

/-- C9 helper: the full sanitizer is idempotent. -/
theorem sanitizeSlug_idem_aux (x : List Char) :
    sanitizeSlug (sanitizeSlug x) = sanitizeSlug x := by
  unfold sanitizeSlug
  by_cases h : sanitizeCore x = []
  · rw [if_pos h, if_neg (by rw [sanitizeCore_untitled]; decide),
      sanitizeCore_untitled]
  · rw [if_neg h, if_neg (by rw [sanitizeCore_idem]; exact h), sanitizeCore_idem]

/-! ### Claim theorems (first group) -/

/-- C6: charchecker raises InvalidName (returns an error) if and only if
the name contains a character outside [a-z0-9_-]; equivalently it accepts
the name exactly when every character is a lowercase letter, a digit, an
underscore or a hyphen. -/
theorem C6_charchecker_iff (name : List Char) :
    ((charchecker name).isSome ↔
      ∃ c ∈ name, ¬(('a' ≤ c ∧ c ≤ 'z') ∨ ('0' ≤ c ∧ c ≤ '9') ∨ c = '_' ∨ c = '-'))
    ∧ (charchecker name = none ↔
      ∀ c ∈ name, ('a' ≤ c ∧ c ≤ 'z') ∨ ('0' ≤ c ∧ c ≤ '9') ∨ c = '_' ∨ c = '-') := by
  have hgood : ∀ c : Char, goodChar c = true ↔
      (('a' ≤ c ∧ c ≤ 'z') ∨ ('0' ≤ c ∧ c ≤ '9') ∨ c = '_' ∨ c = '-') := by
    intro c
    unfold goodChar
    exact decide_eq_true_iff
  have hnot : ∀ c : Char, (!(goodChar c)) = true ↔
      ¬(('a' ≤ c ∧ c ≤ 'z') ∨ ('0' ≤ c ∧ c ≤ '9') ∨ c = '_' ∨ c = '-') := by
    intro c
    rw [Bool.not_eq_true', ← Bool.not_eq_true, hgood]
  have hsome : (charchecker name).isSome = name.any (fun c => !(goodChar c)) := by
    unfold charchecker
    cases hb : name.any (fun c => !(goodChar c)) <;> rfl
  have hnone : (charchecker name = none) ↔
      name.any (fun c => !(goodChar c)) = false := by
    unfold charchecker
    cases hb : name.any (fun c => !(goodChar c)) <;> simp
  constructor
  · rw [hsome, List.any_eq_true]
    constructor
    · rintro ⟨c, hc, hb⟩
      exact ⟨c, hc, (hnot c).mp hb⟩
    · rintro ⟨c, hc, hb⟩
      exact ⟨c, hc, (hnot c).mpr hb⟩
  · rw [hnone, ← Bool.not_eq_true, List.any_eq_true]
    push_neg
    constructor
    · intro h c hc
      by_contra hb
      exact h c hc ((hnot c).mpr hb)
    · intro h c hc hb
      exact (hnot c).mp hb (h c hc)

/-- C9: slug derivation (lowercase, spaces to hyphens, strip characters
outside the slug alphabet, fall back to "untitled" when empty) is
idempotent. -/
theorem C9_sanitize_idem (x : List Char) :
    sanitizeSlug (sanitizeSlug x) = sanitizeSlug x :=
  sanitizeSlug_idem_aux x

/-! ### helper.go: youtubeRegex and the extractor

youtubeRegex is
(?:https?:\/\/)?(?:www\.)?(?:youtube\.com\/(?:watch\?v=|embed\/)|youtu\.be\/)([a-zA-Z0-9\-_]+)
and FindStringSubmatch returns the leftmost match under leftmost-first
(backtracking-preference) semantics.  The model matches the regex at each
start position from the left, trying the alternatives of each optional
group in the regex's preference order. -/

/-- A character of the video-ID class [a-zA-Z0-9\-_]. -/
def idChar (c : Char) : Bool :=
  decide (('a' ≤ c ∧ c ≤ 'z') ∨ ('A' ≤ c ∧ c ≤ 'Z') ∨ ('0' ≤ c ∧ c ≤ '9') ∨ c = '-' ∨ c = '_')

/-- Consume a literal piece of the regex from the front of the input. -/
def stripLit : List Char → List Char → Option (List Char)
  | [], ys => some ys
  | _ :: _, [] => none
  | p :: ps, y :: ys => if p = y then stripLit ps ys else none

/-- Backtracking preference: the first alternative if it matches, else the
second. -/
def orTry (o : Option (List Char)) (f : Unit → Option (List Char)) : Option (List Char) :=
  match o with
  | some v => some v
  | none => f ()

/-- The capturing group ([a-zA-Z0-9\-_]+): a greedy nonempty run of
ID characters (nothing follows the group in the regex, so the greedy
first match is the maximal run). -/
def idCapture (xs : List Char) : Option (List Char) :=
  if xs.takeWhile idChar = [] then none else some (xs.takeWhile idChar)

/-- The host alternation youtube.com/(watch?v=|embed/) or youtu.be/,
followed by the capturing group. -/
def tryHost (xs : List Char) : Option (List Char) :=
  match stripLit (str "youtube.com/watch?v=") xs with
  | some rest => idCapture rest
  | none =>
    match stripLit (str "youtube.com/embed/") xs with
    | some rest => idCapture rest
    | none =>
      match stripLit (str "youtu.be/") xs with
      | some rest => idCapture rest
      | none => none

/-- The optional www. group, preferring to consume it. -/
def withWww (xs : List Char) : Option (List Char) :=
  match stripLit (str "www.") xs with
  | some rest => orTry (tryHost rest) (fun _ => tryHost xs)
  | none => tryHost xs

/-- The scheme alternative http:// (after https:// has been ruled out or
failed), then the empty scheme. -/
def matchNoHttps (xs : List Char) : Option (List Char) :=
  match stripLit (str "http://") xs with
  | some rest => orTry (withWww rest) (fun _ => withWww xs)
  | none => withWww xs

/-- Match of the whole youtubeRegex anchored at the current position,
returning the captured video ID. -/
def matchAt (xs : List Char) : Option (List Char) :=
  match stripLit (str "https://") xs with
  | some rest => orTry (withWww rest) (fun _ => matchNoHttps xs)
  | none => matchNoHttps xs

/-- FindStringSubmatch: scan start positions from the left, return the
first (leftmost) match. -/
def findYouTube : List Char → Option (List Char)
  | [] => matchAt []
  | c :: t =>
    match matchAt (c :: t) with
    | some v => some v
    | none => findYouTube t

/-- The canonical embeddable URL rebuilt from a video ID. -/
def embedOfId (videoID : List Char) : List Char :=
  str "https://www.youtube.com/embed/" ++ videoID

/-- helper.go extractYouTubeVideoInfo: (embedURL, videoID), or a pair of
empty strings when the regex does not match. -/
def extractYouTubeVideoInfo (text : List Char) : List Char × List Char :=
  match findYouTube text with
  | some videoID => (embedOfId videoID, videoID)
  | none => (str "", str "")

/-- main.go processYouTubeURL: the embed URL, or the empty string when
the regex does not match. -/
def processYouTubeURL (text : List Char) : List Char :=
  match findYouTube text with
  | some videoID => embedOfId videoID
  | none => str ""

/-! #### Matcher lemmas -/

theorem orTry_some {o : Option (List Char)} {f : Unit → Option (List Char)}
    {v : List Char} (h : o = some v) : orTry o f = some v := by
  rw [h]
  rfl

theorem idCapture_of_valid {videoID : List Char} (h1 : videoID ≠ [])
    (h2 : ∀ c ∈ videoID, idChar c = true) : idCapture videoID = some videoID := by
  have ht : videoID.takeWhile idChar = videoID := List.takeWhile_eq_self_iff.mpr h2
  unfold idCapture
  rw [ht, if_neg h1]

theorem find_of_matchAt {xs v : List Char} (h : matchAt xs = some v) :
    findYouTube xs = some v := by
  cases xs with
  | nil => simpa [findYouTube] using h
  | cons c t => simp [findYouTube, h]

theorem tryHost_watch (videoID : List Char) :
    tryHost (str "youtube.com/watch?v=" ++ videoID) = idCapture videoID := rfl

theorem tryHost_embed (videoID : List Char) :
    tryHost (str "youtube.com/embed/" ++ videoID) = idCapture videoID := rfl

theorem tryHost_be (videoID : List Char) :
    tryHost (str "youtu.be/" ++ videoID) = idCapture videoID := rfl

theorem withWww_www {t v : List Char} (h : tryHost t = some v) :
    withWww (str "www." ++ t) = some v := by
  show orTry (tryHost t) (fun _ => tryHost (str "www." ++ t)) = some v
  exact orTry_some h

theorem matchAt_https {t v : List Char} (h : withWww t = some v) :
    matchAt (str "https://" ++ t) = some v := by
  show orTry (withWww t) (fun _ => matchNoHttps (str "https://" ++ t)) = some v
  exact orTry_some h

theorem matchAt_http {t v : List Char} (h : withWww t = some v) :
    matchAt (str "http://" ++ t) = some v := by
  show orTry (withWww t) (fun _ => withWww (str "http://" ++ t)) = some v
  exact orTry_some h

/-- The twelve URL shapes of the spec sentence: the three recognized
host forms, each optionally prefixed by a scheme (http:// or https://)
and by www. -/
def urlShapes : List (List Char) :=
  [str "youtube.com/watch?v=", str "www.youtube.com/watch?v=",
   str "http://youtube.com/watch?v=", str "http://www.youtube.com/watch?v=",
   str "https://youtube.com/watch?v=", str "https://www.youtube.com/watch?v=",
   str "youtube.com/embed/", str "www.youtube.com/embed/",
   str "http://youtube.com/embed/", str "http://www.youtube.com/embed/",
   str "https://youtube.com/embed/", str "https://www.youtube.com/embed/",
   str "youtu.be/", str "www.youtu.be/",
   str "http://youtu.be/", str "http://www.youtu.be/",
   str "https://youtu.be/", str "https://www.youtu.be/"]

/-- C7: for every video ID over the allowed charset, every supported URL
shape carrying that ID extracts to the byte-identical canonical embed URL
https://www.youtube.com/embed/{videoID}; and on any text with no
recognizable YouTube reference the extractor returns empty strings rather
than an error. -/
theorem C7_extract_canonical (videoID : List Char)
    (h1 : videoID ≠ [])
    (h2 : ∀ c ∈ videoID, idChar c = true) :
    (∀ p ∈ urlShapes,
      extractYouTubeVideoInfo (p ++ videoID)
        = (str "https://www.youtube.com/embed/" ++ videoID, videoID))
    ∧ (∀ text : List Char, findYouTube text = none →
        extractYouTubeVideoInfo text = (str "", str "")) := by
  have hid : idCapture videoID = some videoID := idCapture_of_valid h1 h2
  constructor
  · intro p hp
    have hm : matchAt (p ++ videoID) = some videoID := by
      simp only [urlShapes] at hp
      fin_cases hp
      · exact (tryHost_watch videoID).trans hid
      · show matchAt (str "www." ++ (str "youtube.com/watch?v=" ++ videoID)) = some videoID
        exact withWww_www ((tryHost_watch videoID).trans hid)
      · show matchAt (str "http://" ++ (str "youtube.com/watch?v=" ++ videoID)) = some videoID
        exact matchAt_http ((tryHost_watch videoID).trans hid)
      · show matchAt (str "http://" ++ (str "www." ++ (str "youtube.com/watch?v=" ++ videoID)))
            = some videoID
        exact matchAt_http (withWww_www ((tryHost_watch videoID).trans hid))
      · show matchAt (str "https://" ++ (str "youtube.com/watch?v=" ++ videoID)) = some videoID
        exact matchAt_https ((tryHost_watch videoID).trans hid)
      · show matchAt (str "https://" ++ (str "www." ++ (str "youtube.com/watch?v=" ++ videoID)))
            = some videoID
        exact matchAt_https (withWww_www ((tryHost_watch videoID).trans hid))
      · exact (tryHost_embed videoID).trans hid
      · show matchAt (str "www." ++ (str "youtube.com/embed/" ++ videoID)) = some videoID
        exact withWww_www ((tryHost_embed videoID).trans hid)
      · show matchAt (str "http://" ++ (str "youtube.com/embed/" ++ videoID)) = some videoID
        exact matchAt_http ((tryHost_embed videoID).trans hid)
      · show matchAt (str "http://" ++ (str "www." ++ (str "youtube.com/embed/" ++ videoID)))
            = some videoID
        exact matchAt_http (withWww_www ((tryHost_embed videoID).trans hid))
      · show matchAt (str "https://" ++ (str "youtube.com/embed/" ++ videoID)) = some videoID
        exact matchAt_https ((tryHost_embed videoID).trans hid)
      · show matchAt (str "https://" ++ (str "www." ++ (str "youtube.com/embed/" ++ videoID)))
            = some videoID
        exact matchAt_https (withWww_www ((tryHost_embed videoID).trans hid))
      · exact (tryHost_be videoID).trans hid
      · show matchAt (str "www." ++ (str "youtu.be/" ++ videoID)) = some videoID
        exact withWww_www ((tryHost_be videoID).trans hid)
      · show matchAt (str "http://" ++ (str "youtu.be/" ++ videoID)) = some videoID
        exact matchAt_http ((tryHost_be videoID).trans hid)
      · show matchAt (str "http://" ++ (str "www." ++ (str "youtu.be/" ++ videoID)))
            = some videoID
        exact matchAt_http (withWww_www ((tryHost_be videoID).trans hid))
      · show matchAt (str "https://" ++ (str "youtu.be/" ++ videoID)) = some videoID
        exact matchAt_https ((tryHost_be videoID).trans hid)
      · show matchAt (str "https://" ++ (str "www." ++ (str "youtu.be/" ++ videoID)))
            = some videoID
        exact matchAt_https (withWww_www ((tryHost_be videoID).trans hid))
    simp [extractYouTubeVideoInfo, find_of_matchAt hm, embedOfId]
  · intro text h
    simp [extractYouTubeVideoInfo, h]

/-- C7 witness: the concrete video ID abc123 through the youtu.be shape
yields the canonical embed URL. -/
theorem C7_witness :
    ((str "abc123" ≠ ([] : List Char)) ∧ (∀ c ∈ str "abc123", idChar c = true))
    ∧ extractYouTubeVideoInfo (str "https://youtu.be/" ++ str "abc123")
        = (str "https://www.youtube.com/embed/" ++ str "abc123", str "abc123") := by
  refine ⟨⟨by decide, by decide⟩, ?_⟩
  exact (C7_extract_canonical (str "abc123") (by decide) (by decide)).1
    (str "https://youtu.be/") (by decide)

/-! ### strings.Split for a one-character separator -/

/-- Accumulator version of strings.Split: acc holds the current field in
reverse. -/
def splitAcc (sep : Char) (acc : List Char) : List Char → List (List Char)
  | [] => [acc.reverse]
  | c :: t => if c = sep then acc.reverse :: splitAcc sep [] t else splitAcc sep (c :: acc) t

/-- strings.Split(s, sep) for a single-character separator. -/
def splitOnChar (sep : Char) (xs : List Char) : List (List Char) := splitAcc sep [] xs

/-! ### main.go pageViewHandler: the YouTube link list -/

/-- The YouTube part of pageViewHandler: when the link file is absent the
embed list stays empty; otherwise the content is split on newlines, empty
lines are skipped, and every surviving line is passed through
processYouTubeURL and appended unconditionally. -/
def pageViewEmbedURLs (linkFile : Option (List Char)) : List (List Char) :=
  match linkFile with
  | none => []
  | some content =>
    ((splitOnChar '\n' content).filter (fun u => u != [])).map processYouTubeURL

/-! ### part_001 youtubeSaveHandler: append a link

The handler validates the URL with extractYouTubeVideoInfo; on success it
opens pages/{slug}.youtube.txt with O_APPEND|O_CREATE and writes the raw
URL plus a newline.  The file system interaction is modelled as the
content transformation on that one file: absent file behaves as empty. -/

inductive SaveOutcome
  | invalidLink
  | saved (newContent : List Char)
  deriving DecidableEq

def youtubeSaveHandler (url : List Char) (linkFile : Option (List Char)) : SaveOutcome :=
  if (extractYouTubeVideoInfo url).1 = [] then SaveOutcome.invalidLink
  else SaveOutcome.saved ((linkFile.getD []) ++ url ++ str "\n")

/-! #### Inversion lemmas for the matcher -/

theorem idCapture_some {xs v : List Char} (h : idCapture xs = some v) :
    v ≠ [] ∧ ∀ c ∈ v, idChar c = true := by
  unfold idCapture at h
  split at h
  · exact absurd h (by simp)
  · rename_i hne
    injection h with h2
    subst h2
    exact ⟨hne, fun c hc => List.mem_takeWhile_imp hc⟩

theorem orTry_cases {o : Option (List Char)} {f : Unit → Option (List Char)}
    {v : List Char} (h : orTry o f = some v) : o = some v ∨ f () = some v := by
  cases o with
  | some w => left; exact h
  | none => right; exact h

theorem tryHost_some {xs v : List Char} (h : tryHost xs = some v) :
    v ≠ [] ∧ ∀ c ∈ v, idChar c = true := by
  unfold tryHost at h
  split at h
  · exact idCapture_some h
  · split at h
    · exact idCapture_some h
    · split at h
      · exact idCapture_some h
      · exact absurd h (by simp)

theorem withWww_some {xs v : List Char} (h : withWww xs = some v) :
    v ≠ [] ∧ ∀ c ∈ v, idChar c = true := by
  unfold withWww at h
  split at h
  · rcases orTry_cases h with h2 | h2 <;> exact tryHost_some h2
  · exact tryHost_some h

theorem matchNoHttps_some {xs v : List Char} (h : matchNoHttps xs = some v) :
    v ≠ [] ∧ ∀ c ∈ v, idChar c = true := by
  unfold matchNoHttps at h
  split at h
  · rcases orTry_cases h with h2 | h2 <;> exact withWww_some h2
  · exact withWww_some h

theorem matchAt_some {xs v : List Char} (h : matchAt xs = some v) :
    v ≠ [] ∧ ∀ c ∈ v, idChar c = true := by
  unfold matchAt at h
  split at h
  · rcases orTry_cases h with h2 | h2
    · exact withWww_some h2
    · exact matchNoHttps_some h2
  · exact matchNoHttps_some h

theorem findYouTube_some {xs v : List Char} (h : findYouTube xs = some v) :
    v ≠ [] ∧ ∀ c ∈ v, idChar c = true := by
  induction xs with
  | nil => exact matchAt_some h
  | cons c t ih =>
    unfold findYouTube at h
    split at h
    · rename_i w hw
      injection h with h2
      subst h2
      exact matchAt_some hw
    · exact ih h

/-! ### Claim theorems: C4 and C8 -/

/-- C4 counterexample: a link file holding one non-YouTube line makes the
page viewer's embed list contain the empty string, so an element of the
returned sequence is an empty string at this concrete input. -/
theorem C4_counterexample :
    pageViewEmbedURLs (some (str "notaurl\n")) = [str ""]
    ∧ (str "") ∈ pageViewEmbedURLs (some (str "notaurl\n")) := by
  constructor <;> decide

/-- C4 amended: the page viewer returns no embeds for an absent link file,
splits on newlines, discards empty lines and maps every surviving line
through the extractor unconditionally, so every element of the returned
sequence is either the canonical embed URL of a nonempty video ID over
the allowed charset (a successful extraction) or the empty string (a line
with no recognizable YouTube reference); failed extractions are not
filtered out. -/
theorem C4_list_elements (linkFile : Option (List Char)) :
    (linkFile = none → pageViewEmbedURLs linkFile = [])
    ∧ (∀ u ∈ pageViewEmbedURLs linkFile,
        (∃ videoID, videoID ≠ [] ∧ (∀ c ∈ videoID, idChar c = true)
          ∧ u = embedOfId videoID)
        ∨ u = str "") := by
  constructor
  · intro h
    rw [h]
    rfl
  · intro u hu
    cases linkFile with
    | none => exact absurd hu (by simp [pageViewEmbedURLs])
    | some content =>
      rcases List.mem_map.mp hu with ⟨line, hline, hl⟩
      unfold processYouTubeURL at hl
      cases hf : findYouTube line with
      | none =>
        right
        rw [hf] at hl
        exact hl.symm
      | some videoID =>
        left
        have hv := findYouTube_some hf
        rw [hf] at hl
        exact ⟨videoID, hv.1, hv.2, hl.symm⟩

/-- C4 witness for the amended statement: the absent-file case, and the
element shape at a concrete file content. -/
theorem C4_list_elements_witness :
    pageViewEmbedURLs none = []
    ∧ ((∃ videoID, videoID ≠ [] ∧ (∀ c ∈ videoID, idChar c = true)
          ∧ str "" = embedOfId videoID)
        ∨ str "" = str "") :=
  ⟨(C4_list_elements none).1 rfl,
   (C4_list_elements (some (str "notaurl\n"))).2 (str "") (by decide)⟩

/-- C8: the link-append handler fails with InvalidLink exactly when the
extractor finds no YouTube reference in the URL text; when a reference is
found it appends the raw URL plus a newline to the existing content
(absent file treated as empty, prior content preserved); and appending
https://youtu.be/abc123 to a page with no prior links makes the link list
return exactly the canonical embed URL. -/
theorem C8_save_append (url : List Char) (linkFile : Option (List Char)) :
    (youtubeSaveHandler url linkFile = SaveOutcome.invalidLink ↔ findYouTube url = none)
    ∧ (∀ videoID, findYouTube url = some videoID →
        youtubeSaveHandler url linkFile
          = SaveOutcome.saved ((linkFile.getD []) ++ url ++ str "\n"))
    ∧ youtubeSaveHandler (str "https://youtu.be/abc123") none
        = SaveOutcome.saved (str "https://youtu.be/abc123" ++ str "\n")
    ∧ pageViewEmbedURLs (some (str "https://youtu.be/abc123" ++ str "\n"))
        = [str "https://www.youtube.com/embed/abc123"] := by
  refine ⟨?_, ?_, by decide, by decide⟩
  · unfold youtubeSaveHandler extractYouTubeVideoInfo
    cases hf : findYouTube url with
    | none => simp [str]
    | some videoID =>
      have hne : embedOfId videoID ≠ [] := by simp [embedOfId, str]
      simp [hne]
  · intro videoID h
    unfold youtubeSaveHandler extractYouTubeVideoInfo
    rw [h]
    have hne : embedOfId videoID ≠ [] := by simp [embedOfId, str]
    simp [hne]

/-- C8 witness: the append branch applied at the scenario input. -/
theorem C8_save_append_witness :
    youtubeSaveHandler (str "https://youtu.be/abc123") none
      = SaveOutcome.saved ((Option.getD none []) ++ str "https://youtu.be/abc123" ++ str "\n") :=
  (C8_save_append (str "https://youtu.be/abc123") none).2.1 (str "abc123") (by decide)

/-! ### path/filepath models (Unix separator)

filepath.Base: strip trailing separators, keep everything after the last
remaining separator; empty input gives ".", an all-separator input gives
"/".  filepath.Clean: the documented lexical algorithm (collapse
separators, drop "." elements, resolve inner ".." elements, keep leading
".." on relative paths, drop ".." at the root).  filepath.Join of two
elements: drop empty elements, join the rest with "/", then Clean. -/

def baseName (path : List Char) : List Char :=
  if path = [] then str "."
  else if ((path.reverse.dropWhile (fun c => c == '/')).takeWhile (fun c => c != '/')).reverse
      = [] then str "/"
  else ((path.reverse.dropWhile (fun c => c == '/')).takeWhile (fun c => c != '/')).reverse

/-- Process the separator-split elements of a path with the stack of kept
elements (in reverse): drop empty and "." elements, let ".." pop a kept
non-".." element, keep ".." itself only on relative paths with nothing to
pop. -/
def segClean (rooted : Bool) : List (List Char) → List (List Char) → List (List Char)
  | out, [] => out.reverse
  | out, s :: rest =>
    if s = [] ∨ s = str "." then segClean rooted out rest
    else if s = str ".." then
      match out with
      | o :: os =>
        if o = str ".." then segClean rooted (s :: o :: os) rest
        else segClean rooted os rest
      | [] => if rooted then segClean rooted [] rest else segClean rooted [s] rest
    else segClean rooted (s :: out) rest

def joinSegs : List (List Char) → List Char
  | [] => []
  | [s] => s
  | s :: rest => s ++ '/' :: joinSegs rest

def cleanCore (path : List Char) : List Char :=
  (if path.head? == some '/' then ['/'] else [])
    ++ joinSegs (segClean (path.head? == some '/') [] (splitOnChar '/' path))

def goClean (path : List Char) : List Char :=
  if path = [] then str "."
  else if cleanCore path = [] then str "." else cleanCore path

def goJoin2 (a b : List Char) : List Char :=
  if a = [] then (if b = [] then [] else goClean b)
  else if b = [] then goClean a
  else goClean (a ++ '/' :: b)

/-! ### part_001 youtubeVoteHandler -/

def lookupVote (votes : List (List Char × Int)) (videoID : List Char) : Int :=
  match votes with
  | [] => 0
  | (k, n) :: rest => if k = videoID then n else lookupVote rest videoID

/-- votes[videoID] += d on the Go map, the missing key defaulting to 0. -/
def bumpVote (votes : List (List Char × Int)) (videoID : List Char) (d : Int) :
    List (List Char × Int) :=
  match votes with
  | [] => [(videoID, d)]
  | (k, n) :: rest =>
    if k = videoID then (k, n + d) :: rest else (k, n) :: bumpVote rest videoID d

inductive VoteOutcome
  | invalidURL
  | invalidAction
  | ok (votesFilename : List Char) (newVotes : List (List Char × Int))
  deriving DecidableEq

/-- part_001 youtubeVoteHandler after the method check: split the request
path on "/", reject paths with fewer than 5 parts, then read
pathParts[2] as slug, pathParts[3] as videoID and pathParts[4] as action
exactly as the code does; reject actions other than upvote/downvote;
otherwise increment or decrement the entry in pages/{slug}.votes.json
(absent file behaves as an empty tally).  JSON (de)serialization is
abstracted: the tally file is read as an already-parsed mapping, and ok
carries the file written and its new parsed content. -/
def youtubeVoteHandler (path : List Char)
    (readVotes : List Char → Option (List (List Char × Int))) : VoteOutcome :=
  if (splitOnChar '/' path).length < 5 then VoteOutcome.invalidURL
  else if (splitOnChar '/' path).getD 4 [] ≠ str "upvote"
      ∧ (splitOnChar '/' path).getD 4 [] ≠ str "downvote" then VoteOutcome.invalidAction
  else
    VoteOutcome.ok
      (goJoin2 (str "pages") ((splitOnChar '/' path).getD 2 [] ++ str ".votes.json"))
      (if (splitOnChar '/' path).getD 4 [] = str "upvote" then
        bumpVote ((readVotes (goJoin2 (str "pages")
          ((splitOnChar '/' path).getD 2 [] ++ str ".votes.json"))).getD [])
          ((splitOnChar '/' path).getD 3 []) 1
      else
        bumpVote ((readVotes (goJoin2 (str "pages")
          ((splitOnChar '/' path).getD 2 [] ++ str ".votes.json"))).getD [])
          ((splitOnChar '/' path).getD 3 []) (-1))

/-! ### main.go createPageHandler -/

inductive CreateOutcome
  | badName
  | emptyName
  | alreadyExists (slug : List Char)
  | created (slug filename body : List Char)
  deriving DecidableEq

/-- createPageHandler after JSON decoding: charchecker runs first, then
the empty-name check, then slug derivation, the existence check on
pages/{slug}.txt, and finally the default body write. -/
def createPageHandler (name : List Char) (fileExists : List Char → Bool) : CreateOutcome :=
  match charchecker name with
  | some _ => CreateOutcome.badName
  | none =>
    if name = [] ∨ name = str " " then CreateOutcome.emptyName
    else if fileExists (goJoin2 (str "pages") (sanitizeSlug name ++ str ".txt")) then
      CreateOutcome.alreadyExists (sanitizeSlug name)
    else
      CreateOutcome.created (sanitizeSlug name)
        (goJoin2 (str "pages") (sanitizeSlug name ++ str ".txt"))
        (str "This is the new page for **" ++ name ++ str "**")

/-! ### main.go indexHandler -/

structure DirEntry where
  name : List Char
  isDir : Bool
  deriving DecidableEq

/-- strings.HasSuffix via an initial-run test on the reversals. -/
def leadsWith : List Char → List Char → Bool
  | [], _ => true
  | _ :: _, [] => false
  | p :: ps, y :: ys => p == y && leadsWith ps ys

def hasSuffixStr (suf xs : List Char) : Bool := leadsWith suf.reverse xs.reverse

/-- strings.TrimSuffix. -/
def trimSuffixStr (suf xs : List Char) : List Char :=
  if hasSuffixStr suf xs then xs.take (xs.length - suf.length) else xs

/-- indexHandler: keep the non-directory entries whose name ends in .txt
and strip that suffix, in enumeration order. -/
def indexPageNames (files : List DirEntry) : List (List Char) :=
  (files.filter (fun f => !f.isDir && hasSuffixStr (str ".txt") f.name)).map
    (fun f => trimSuffixStr (str ".txt") f.name)

/-! #### Vote tally lemmas -/

theorem lookupVote_bumpVote (votes : List (List Char × Int)) (videoID : List Char) (d : Int) :
    lookupVote (bumpVote votes videoID d) videoID = lookupVote votes videoID + d := by
  induction votes with
  | nil => simp [bumpVote, lookupVote]
  | cons kv rest ih =>
    obtain ⟨k, n⟩ := kv
    by_cases hk : k = videoID
    · simp [bumpVote, lookupVote, hk]
    · simp [bumpVote, lookupVote, hk, ih]

theorem lookupVote_foldl (ds : List Int) (videoID : List Char)
    (votes : List (List Char × Int)) :
    lookupVote (ds.foldl (fun w d => bumpVote w videoID d) votes) videoID
      = lookupVote votes videoID + ds.sum := by
  induction ds generalizing votes with
  | nil => simp
  | cons d ds ih =>
    rw [List.foldl_cons, ih, lookupVote_bumpVote, List.sum_cons]
    ring

/-! ### Claim theorems: C2, C3, C5, C10 -/

/-- C2: evaluation at the failing input.  The handler's own comment and
the spec document the URL shape /api/vote/{slug}/{videoID}/{action}, yet
the code reads pathParts[2..4]; the very first upvote of the claimed
scenario is rejected as InvalidAction and no tally is ever written, so
the persisted tally cannot reach N − M.  The second conjunct shows the
tally-update kernel itself would satisfy the claimed arithmetic: N
increments and M decrements from an absent entry leave exactly N − M. -/
theorem C2_vote_sequence :
    youtubeVoteHandler (str "/api/vote/mypage/abc123/upvote") (fun _ => none)
        = VoteOutcome.invalidAction
    ∧ (∀ (N M : Nat) (videoID : List Char),
        lookupVote
          ((List.replicate N (1 : Int) ++ List.replicate M (-1 : Int)).foldl
            (fun w d => bumpVote w videoID d) [])
          videoID = (N : Int) - (M : Int)) := by
  constructor
  · decide
  · intro N M videoID
    rw [lookupVote_foldl, List.sum_append]
    simp [lookupVote, List.sum_replicate]
    ring

/-- C3: evaluation at the failing input.  The last segment of the request
path is the action "upvote", yet the handler raises InvalidAction,
because it compares pathParts[4] (the videoID segment of the documented
URL shape) against upvote/downvote. -/
theorem C3_invalid_action_misparse :
    (splitOnChar '/' (str "/api/vote/cats/dQw4w9WgXcQ/upvote")).getLast?
        = some (str "upvote")
    ∧ (splitOnChar '/' (str "/api/vote/cats/dQw4w9WgXcQ/upvote")).getD 4 []
        = str "dQw4w9WgXcQ"
    ∧ youtubeVoteHandler (str "/api/vote/cats/dQw4w9WgXcQ/upvote") (fun _ => none)
        = VoteOutcome.invalidAction := by
  refine ⟨by decide, by decide, by decide⟩

/-- C5 counterexample: create with the name "My New Page!" does not
succeed; charchecker rejects the name (uppercase letters, spaces and the
exclamation mark are outside [a-z0-9_-]) before any slug derivation or
file write. -/
theorem C5_counterexample :
    createPageHandler (str "My New Page!") (fun _ => false) = CreateOutcome.badName := by
  decide

/-- C5 amended: create("My New Page!") is rejected as an invalid name
(InvalidName) before any transformation, no page is created; the slug
derivation itself, had the name passed validation, would produce
"my-new-page". -/
theorem C5_create_rejected :
    createPageHandler (str "My New Page!") (fun _ => false) = CreateOutcome.badName
    ∧ (charchecker (str "My New Page!")).isSome = true
    ∧ sanitizeSlug (str "My New Page!") = str "my-new-page" := by
  refine ⟨by decide, by decide, by decide⟩

/-! #### Suffix lemmas for the index listing -/

theorem leadsWith_append (p r : List Char) : leadsWith p (p ++ r) = true := by
  induction p with
  | nil => rfl
  | cons c t ih => simp [leadsWith, ih]

theorem hasSuffixStr_append (xs suf : List Char) : hasSuffixStr suf (xs ++ suf) = true := by
  unfold hasSuffixStr
  rw [List.reverse_append]
  exact leadsWith_append _ _

theorem trimSuffixStr_append (xs suf : List Char) : trimSuffixStr suf (xs ++ suf) = xs := by
  unfold trimSuffixStr
  rw [if_pos (hasSuffixStr_append xs suf), List.length_append, Nat.add_sub_cancel]
  exact List.take_left xs suf

/-- C10: the page-list filter of indexHandler also matches YouTube link
files: whenever the pages directory holds both {s}.txt and
{s}.youtube.txt as regular files, the returned page list contains both
"s" and the spurious entry "s.youtube". -/
theorem C10_index_spurious_entries (files : List DirEntry) (s : List Char)
    (h1 : DirEntry.mk (s ++ str ".txt") false ∈ files)
    (h2 : DirEntry.mk (s ++ str ".youtube.txt") false ∈ files) :
    s ∈ indexPageNames files ∧ (s ++ str ".youtube") ∈ indexPageNames files := by
  have hsplit : (s ++ str ".youtube") ++ str ".txt" = s ++ str ".youtube.txt" := by
    rw [List.append_assoc]
    rfl
  constructor
  · refine List.mem_map.mpr ⟨DirEntry.mk (s ++ str ".txt") false, ?_, ?_⟩
    · exact List.mem_filter.mpr ⟨h1, by simp [hasSuffixStr_append]⟩
    · exact trimSuffixStr_append s (str ".txt")
  · refine List.mem_map.mpr ⟨DirEntry.mk (s ++ str ".youtube.txt") false, ?_, ?_⟩
    · refine List.mem_filter.mpr ⟨h2, ?_⟩
      show (!false && hasSuffixStr (str ".txt") (s ++ str ".youtube.txt")) = true
      rw [← hsplit]
      simp only [Bool.not_false, Bool.true_and]
      exact hasSuffixStr_append _ _
    · show trimSuffixStr (str ".txt") (s ++ str ".youtube.txt") = s ++ str ".youtube"
      rw [← hsplit]
      exact trimSuffixStr_append (s ++ str ".youtube") (str ".txt")

/-- C10 witness: a concrete directory with cats.txt and cats.youtube.txt
lists both cats and cats.youtube. -/
theorem C10_index_spurious_entries_witness :
    str "cats" ∈ indexPageNames
      [DirEntry.mk (str "cats.txt") false, DirEntry.mk (str "cats.youtube.txt") false]
    ∧ (str "cats" ++ str ".youtube") ∈ indexPageNames
      [DirEntry.mk (str "cats.txt") false, DirEntry.mk (str "cats.youtube.txt") false] :=
  C10_index_spurious_entries
    [DirEntry.mk (str "cats.txt") false, DirEntry.mk (str "cats.youtube.txt") false]
    (str "cats") (by decide) (by decide)

/-! ### main.go pageViewHandler: slug normalization and the opened path -/

/-- The slug of a page-view request: everything after the /page/ route
part of the URL path. -/
def pageViewSlugOf (reqPath : List Char) : List Char := reqPath.drop (str "/page/").length

/-- The file opened by pageViewHandler:
filepath.Join("pages", filepath.Base(slug) + ".txt"). -/
def pageViewFilename (reqPath : List Char) : List Char :=
  goJoin2 (str "pages") (baseName (pageViewSlugOf reqPath) ++ str ".txt")

/-! #### splitOnChar lemmas -/

theorem splitAcc_of_sepFree (sep : Char) (a : List Char) (h : ∀ c ∈ a, c ≠ sep) :
    ∀ acc : List Char, splitAcc sep acc a = [acc.reverse ++ a] := by
  induction a with
  | nil => intro acc; simp [splitAcc]
  | cons c t ih =>
    intro acc
    have hc : c ≠ sep := h c (List.mem_cons_self c t)
    have ht : ∀ x ∈ t, x ≠ sep := fun x hx => h x (List.mem_cons_of_mem c hx)
    simp only [splitAcc]
    rw [if_neg hc, ih ht (c :: acc)]
    simp

theorem splitAcc_sep_cons (sep : Char) (a b : List Char) (h : ∀ c ∈ a, c ≠ sep) :
    ∀ acc : List Char, splitAcc sep acc (a ++ sep :: b)
      = (acc.reverse ++ a) :: splitAcc sep [] b := by
  induction a with
  | nil => intro acc; simp [splitAcc]
  | cons c t ih =>
    intro acc
    have hc : c ≠ sep := h c (List.mem_cons_self c t)
    have ht : ∀ x ∈ t, x ≠ sep := fun x hx => h x (List.mem_cons_of_mem c hx)
    simp only [List.cons_append, splitAcc, List.append_eq]
    rw [if_neg hc, ih ht (c :: acc)]
    simp

theorem splitOnChar_sepFree (sep : Char) (a : List Char) (h : ∀ c ∈ a, c ≠ sep) :
    splitOnChar sep a = [a] := by
  unfold splitOnChar
  rw [splitAcc_of_sepFree sep a h []]
  rfl

theorem splitOnChar_append_sep (sep : Char) (a b : List Char) (h : ∀ c ∈ a, c ≠ sep) :
    splitOnChar sep (a ++ sep :: b) = a :: splitOnChar sep b := by
  unfold splitOnChar
  rw [splitAcc_sep_cons sep a b h []]
  rfl

/-! #### baseName and segClean lemmas -/

/-- filepath.Base always returns either "/" (for all-separator inputs) or
a nonempty name with no separator in it. -/
theorem baseName_spec (path : List Char) :
    baseName path = str "/" ∨ (baseName path ≠ [] ∧ ∀ c ∈ baseName path, c ≠ '/') := by
  unfold baseName
  by_cases h0 : path = []
  · rw [if_pos h0]
    right
    refine ⟨by decide, ?_⟩
    have hall : ∀ x ∈ str ".", x ≠ '/' := by decide
    exact hall
  · rw [if_neg h0]
    by_cases h1 : ((path.reverse.dropWhile (fun c => c == '/')).takeWhile
        (fun c => c != '/')).reverse = []
    · rw [if_pos h1]
      left
      rfl
    · rw [if_neg h1]
      right
      refine ⟨h1, ?_⟩
      intro c hc
      rw [List.mem_reverse] at hc
      have hp := List.mem_takeWhile_imp hc
      simpa using hp

theorem segClean_plain (rooted : Bool) (out rest : List (List Char)) (s : List Char)
    (hs1 : s ≠ []) (hs2 : s ≠ str ".") (hs3 : s ≠ str "..") :
    segClean rooted out (s :: rest) = segClean rooted (s :: out) rest := by
  simp only [segClean]
  rw [if_neg (by simp [hs1, hs2]), if_neg hs3]

/-- Joining "pages" with any separator-free nonempty base name plus
".txt" yields a path directly inside the pages directory. -/
theorem goJoin2_pages_spec (b : List Char) (_hbne : b ≠ []) (hbsep : ∀ c ∈ b, c ≠ '/') :
    ∃ f : List Char,
      goJoin2 (str "pages") (b ++ str ".txt") = str "pages" ++ '/' :: f
      ∧ f ≠ [] ∧ (∀ c ∈ f, c ≠ '/') ∧ f ≠ str ".." ∧ f ≠ str "." := by
  have htxt : ∀ x ∈ str ".txt", x ≠ '/' := by decide
  have hqsep : ∀ c ∈ b ++ str ".txt", c ≠ '/' := by
    intro c hc
    rcases List.mem_append.mp hc with h | h
    · exact hbsep c h
    · exact htxt c h
  have hqne : b ++ str ".txt" ≠ [] := by simp [str]
  have hqdot : b ++ str ".txt" ≠ str "." := by
    intro h
    have := congrArg List.length h
    simp [str] at this
  have hqdd : b ++ str ".txt" ≠ str ".." := by
    intro h
    have := congrArg List.length h
    simp [str] at this
  refine ⟨b ++ str ".txt", ?_, hqne, hqsep, hqdd, hqdot⟩
  unfold goJoin2
  rw [if_neg (by decide), if_neg hqne]
  have hsplit : splitOnChar '/' (str "pages" ++ '/' :: (b ++ str ".txt"))
      = [str "pages", b ++ str ".txt"] := by
    rw [splitOnChar_append_sep '/' (str "pages") _ (by decide)]
    rw [splitOnChar_sepFree '/' _ hqsep]
  have hsegs : segClean false [] [str "pages", b ++ str ".txt"]
      = [str "pages", b ++ str ".txt"] := by
    rw [segClean_plain false [] _ (str "pages") (by decide) (by decide) (by decide)]
    rw [segClean_plain false [str "pages"] [] _ hqne hqdot hqdd]
    rfl
  have hcore : cleanCore (str "pages" ++ '/' :: (b ++ str ".txt"))
      = str "pages" ++ '/' :: (b ++ str ".txt") := by
    show ([] : List Char)
        ++ joinSegs (segClean false [] (splitOnChar '/' (str "pages" ++ '/' :: (b ++ str ".txt"))))
      = str "pages" ++ '/' :: (b ++ str ".txt")
    rw [hsplit, hsegs]
    rfl
  unfold goClean
  rw [if_neg (by simp [str]), if_neg (by rw [hcore]; simp [str])]
  exact hcore

/-- C1: for every request path handled by the page viewer, the slug is
normalized with filepath.Base before file access, so the opened file path
is always pages/f for a single nonempty path element f that contains no
separator and is neither ".." nor "." — no directory traversal via the
slug is possible. -/
theorem C1_no_directory_traversal (reqPath : List Char) :
    ∃ f : List Char,
      pageViewFilename reqPath = str "pages" ++ '/' :: f
      ∧ f ≠ [] ∧ (∀ c ∈ f, c ≠ '/') ∧ f ≠ str ".." ∧ f ≠ str "." := by
  unfold pageViewFilename
  rcases baseName_spec (pageViewSlugOf reqPath) with hb | ⟨hbne, hbsep⟩
  · rw [hb]
    exact ⟨str ".txt", by decide, by decide, by decide, by decide, by decide⟩
  · exact goJoin2_pages_spec _ hbne hbsep

end GoWiki
